import Mathlib

/-!
Verification of the genetic-algorithm core of `genetic_algorithm.py`
(stock-forecast-GA).

The Python source is embedded shallowly:

* `Chromosome` (the class lives in the missing file `chromosome.py`) is
  modelled from the spec: a 7-gene rational weight vector plus an integer
  fitness, both zero on construction.
* Randomness is made explicit: every call to `random.randint` /
  `random.uniform` / `random.shuffle` consumes a draw that is passed in as
  a parameter (`randint a b raw` lands in `[a, b]` for every raw draw, as
  the library call does; uniform rolls are arbitrary rationals; a shuffle
  outcome is an arbitrary permutation of the input list).
* Numeric values are embedded in exact arithmetic (`ℚ`); the
  numerically-stabilized logistic of `evaluate_sigmoid` reduces in exact
  arithmetic to the sign test `0 ≤ gamma`, justified by the two real-number
  lemmas `logistic_branches_agree` and `logistic_ge_half_iff` below.
* Python exceptions become `Except` / `Option` results; Python 2 integer
  division `/` on ints is `Nat` division.
* The out-of-scope I/O collaborators (CSV loading, the `stat.txt` stream,
  plotting) are cut at their interface: a dataset is a chronological list
  of rational feature rows, and the statistics stream is omitted.
-/

/-- Chromosome data model. Modelled from the spec: the class `Chromosome`
(file `chromosome.py`) is imported by the source but is not part of the
sources; per the spec an individual carries an ordered sequence of exactly
7 real-valued genes and an integer fitness that is zero/unset until the
first evaluation. -/
structure Chromosome where
  weights : Fin 7 → ℚ
  fitness : ℕ

/-- Equality of chromosomes is decidable (genes are compared pointwise over
the finite index type). -/
instance : DecidableEq Chromosome := fun a b =>
  decidable_of_iff (a.weights = b.weights ∧ a.fitness = b.fitness) (by
    cases a; cases b; simp)

/-- Freshly constructed chromosome. Modelled from the spec: `Chromosome()`
starts with default/zero genes and unset (zero) fitness. -/
def Chromosome.new : Chromosome where
  weights := fun _ => 0
  fitness := 0

/-- Embedding of `random.randint(a, b)`: the library call returns an integer
in `[a, b]` inclusive; the raw draw is reduced into that range. -/
def randint (a b raw : ℕ) : ℕ := a + raw % (b - a + 1)

theorem randint_le {a b : ℕ} (h : a ≤ b) (raw : ℕ) : randint a b raw ≤ b := by
  have hlt : raw % (b - a + 1) < b - a + 1 := Nat.mod_lt _ (Nat.succ_pos _)
  unfold randint
  omega

theorem le_randint (a b raw : ℕ) : a ≤ randint a b raw := Nat.le_add_right a _

/-- Embedding of the branch structure of `evaluate_sigmoid`: in exact
arithmetic the `gamma < 0` branch `1 - 1/(1 + e^gamma)` equals the other
branch `1/(1 + e^(-gamma))`. -/
theorem logistic_branches_agree (γ : ℝ) :
    1 - 1 / (1 + Real.exp γ) = 1 / (1 + Real.exp (-γ)) := by
  have h1 : (0:ℝ) < 1 + Real.exp γ := by positivity
  have h2 : (0:ℝ) < 1 + Real.exp (-γ) := by positivity
  have he : Real.exp γ ≠ 0 := (Real.exp_pos γ).ne'
  rw [Real.exp_neg]
  field_simp
  ring

/-- Threshold justification for `evaluate_sigmoid`: in exact arithmetic the
logistic value is at least `0.5` exactly when `gamma` is nonnegative, so the
`res >= 0.5` test of the source is the sign test `0 ≤ gamma`. -/
theorem logistic_ge_half_iff (γ : ℝ) :
    1 / 2 ≤ 1 / (1 + Real.exp (-γ)) ↔ 0 ≤ γ := by
  have h2 : (0:ℝ) < 1 + Real.exp (-γ) := by positivity
  rw [div_le_div_iff₀ (by norm_num) h2]
  constructor
  · intro h
    have : Real.exp (-γ) ≤ 1 := by linarith
    have := Real.exp_le_one_iff.mp this
    linarith
  · intro h
    have : Real.exp (-γ) ≤ 1 := Real.exp_le_one_iff.mpr (by linarith)
    linarith

/-- Embedding of `evaluate_sigmoid(weights, values)`: the weighted sum is
the zip fold of the source; the logistic-plus-threshold is embedded as the
sign test on `gamma` (see `logistic_branches_agree` and
`logistic_ge_half_iff`), returning `1` or `-1`. -/
def evaluate_sigmoid (weights : Fin 7 → ℚ) (values : List ℚ) : ℤ :=
  let weighted_sum :=
    (List.zipWith (fun w v => w * v) (List.ofFn weights) values).foldl
      (fun s x => s + x) 0
  let gamma := weighted_sum - 125000
  if 0 ≤ gamma then 1 else -1

/-- Success condition of one iteration of the `evaluate_fitness` loop: the
classifier output at row `i` matches the sign of the closing-price
difference between rows `i + 1` and `i` (field index 3). -/
def success_at (weights : Fin 7 → ℚ) (data : List (List ℚ)) (i : ℕ) : Bool :=
  let res := evaluate_sigmoid weights (data.getD i [])
  let prc_diff := (data.getD (i + 1) []).getD 3 0 - (data.getD i []).getD 3 0
  decide ((res = 1 ∧ 0 ≤ prc_diff) ∨ (res = -1 ∧ prc_diff < 0))

/-- Embedding of the counting loop of `evaluate_fitness`: fold over
`range(len(data) - 1)` accumulating the `(success, fail)` counters. -/
def fitness_counts (weights : Fin 7 → ℚ) (data : List (List ℚ)) : ℕ × ℕ :=
  (List.range (data.length - 1)).foldl
    (fun sf i => if success_at weights data i then (sf.1 + 1, sf.2) else (sf.1, sf.2 + 1))
    (0, 0)

/-- Embedding of `evaluate_fitness(chromosome, path)`: the CSV load is cut
at its interface (the rows are passed directly); the chromosome's fitness
is set to the success counter via `set_fitness`. -/
def evaluate_fitness (chromosome : Chromosome) (data : List (List ℚ)) : Chromosome :=
  { chromosome with fitness := (fitness_counts chromosome.weights data).1 }

theorem counts_foldl (q : ℕ → Bool) :
    ∀ (l : List ℕ) (p : ℕ × ℕ),
      l.foldl (fun sf i => if q i then (sf.1 + 1, sf.2) else (sf.1, sf.2 + 1)) p
        = (p.1 + l.countP q, p.2 + (l.length - l.countP q)) := by
  intro l
  induction l with
  | nil => intro p; simp
  | cons x xs ih =>
    intro p
    rw [List.foldl_cons, ih]
    have hc : xs.countP q ≤ xs.length := List.countP_le_length _
    cases hx : q x <;> simp [hx, List.countP_cons] <;> omega

/-- C1: `evaluate_fitness` sets the chromosome's fitness to the number of
rows among the first `L - 1` whose predicted direction matches the actual
closing-price direction; this count lies in `[0, L - 1]`, the success and
failure counters sum to `L - 1`, and a dataset with fewer than 2 rows
yields fitness 0 without error. -/
theorem evaluate_fitness_spec (c : Chromosome) (data : List (List ℚ)) :
    (evaluate_fitness c data).fitness
        = (List.range (data.length - 1)).countP (success_at c.weights data) ∧
    (evaluate_fitness c data).fitness ≤ data.length - 1 ∧
    (fitness_counts c.weights data).1 + (fitness_counts c.weights data).2
        = data.length - 1 ∧
    (data.length < 2 → (evaluate_fitness c data).fitness = 0) := by
  have hc : (List.range (data.length - 1)).countP (success_at c.weights data)
      ≤ (List.range (data.length - 1)).length := List.countP_le_length _
  have hfc : fitness_counts c.weights data
      = ((List.range (data.length - 1)).countP (success_at c.weights data),
         (List.range (data.length - 1)).length
           - (List.range (data.length - 1)).countP (success_at c.weights data)) := by
    unfold fitness_counts
    rw [counts_foldl]
    simp
  have h1 : (evaluate_fitness c data).fitness
      = (List.range (data.length - 1)).countP (success_at c.weights data) := by
    show (fitness_counts c.weights data).1 = _
    rw [hfc]
  refine ⟨h1, ?_, ?_, ?_⟩
  · rw [h1]
    simpa using hc
  · rw [hfc]
    simp at hc ⊢
    omega
  · intro hlen
    rw [h1]
    have h0 : data.length - 1 = 0 := by omega
    rw [h0]
    simp

/-- Closed instance of C1: on a dataset with fewer than 2 rows the
implication of `evaluate_fitness_spec` yields fitness 0. -/
theorem evaluate_fitness_spec_witness :
    ([] : List (List ℚ)).length < 2 ∧ (evaluate_fitness Chromosome.new []).fitness = 0 :=
  ⟨by decide, (evaluate_fitness_spec Chromosome.new []).2.2.2 (by decide)⟩

/-- Mutation probability `p = 0.5` of `crossover`, written `mkRat 1 2` so
that comparisons against it reduce in the kernel. -/
def crossover_p : ℚ := mkRat 1 2

theorem crossover_p_eq : crossover_p = 1 / 2 := by
  rw [crossover_p, Rat.mkRat_eq_divInt, Rat.divInt_eq_div]
  norm_num

/-- Random-selection probability `p = 0.1` of `select_fittest`, written
`mkRat 1 10` so that comparisons against it reduce in the kernel. -/
def selection_p : ℚ := mkRat 1 10

theorem selection_p_eq : selection_p = 1 / 10 := by
  rw [selection_p, Rat.mkRat_eq_divInt, Rat.divInt_eq_div]
  norm_num

/-- Random draws consumed by one call of `crossover`: the two raw
`randint` draws for the cut points, and per gene index the two
`random.uniform(0, 1)` mutation rolls and the two raw `randint(0, 10)`
increment draws (one of each per child). -/
structure CrossDraws where
  cut1Raw : ℕ
  cut2Raw : ℕ
  mut1 : Fin 7 → ℚ
  mut2 : Fin 7 → ℚ
  inc1 : Fin 7 → ℕ
  inc2 : Fin 7 → ℕ

/-- Store of the four chromosome objects in scope during the `crossover`
loop; modelling the store makes it observable which objects the loop
writes to. -/
structure CrossState where
  child1 : Chromosome
  child2 : Chromosome
  parent1 : Chromosome
  parent2 : Chromosome

/-- Assignment `c.weights[i] = v` on a chromosome object. -/
def setW (c : Chromosome) (i : Fin 7) (v : ℚ) : Chromosome :=
  { c with weights := Function.update c.weights i v }

/-- Gene value written to child 1 at index `i` by one iteration of the
`crossover` loop, as a function of the current child-1 gene value `cur`:
on a mutation roll at most `p = 0.5` the current (default) value plus
`randint(0, 10)`, otherwise the segment copy from parent 1 / parent 2 /
parent 1 around the cut points. -/
def gene1 (cut1 cut2 : ℕ) (d : CrossDraws) (p1 p2 : Chromosome) (cur : ℚ) (i : Fin 7) : ℚ :=
  if d.mut1 i ≤ crossover_p then cur + (randint 0 10 (d.inc1 i) : ℚ)
  else if (i : ℕ) < cut1 then p1.weights i
  else if (i : ℕ) < cut2 then p2.weights i
  else p1.weights i

/-- Gene value written to child 2 at index `i`: the mirrored mapping
(parent 2, parent 1, parent 2). -/
def gene2 (cut1 cut2 : ℕ) (d : CrossDraws) (p1 p2 : Chromosome) (cur : ℚ) (i : Fin 7) : ℚ :=
  if d.mut2 i ≤ crossover_p then cur + (randint 0 10 (d.inc2 i) : ℚ)
  else if (i : ℕ) < cut1 then p2.weights i
  else if (i : ℕ) < cut2 then p1.weights i
  else p2.weights i

/-- One iteration of the `crossover` loop body: assign gene `i` of both
children, reading the parents and the children's current gene values from
the store. -/
def crossover_body (cut1 cut2 : ℕ) (d : CrossDraws) (s : CrossState) (i : Fin 7) : CrossState :=
  { s with
    child1 := setW s.child1 i (gene1 cut1 cut2 d s.parent1 s.parent2 (s.child1.weights i) i)
    child2 := setW s.child2 i (gene2 cut1 cut2 d s.parent1 s.parent2 (s.child2.weights i) i) }

/-- Embedding of `crossover(chromosome1, chromosome2)` as its final store:
draw the cut points (`randint(0, 3)` and `randint(4, 6)`), allocate two
fresh children, and run the loop over the 7 gene indices. -/
def crossover_state (chromosome1 chromosome2 : Chromosome) (d : CrossDraws) : CrossState :=
  (List.finRange 7).foldl
    (crossover_body (randint 0 3 d.cut1Raw) (randint 4 6 d.cut2Raw) d)
    ⟨Chromosome.new, Chromosome.new, chromosome1, chromosome2⟩

/-- Return value of `crossover`: the pair of children from the final store. -/
def crossover (chromosome1 chromosome2 : Chromosome) (d : CrossDraws) : Chromosome × Chromosome :=
  ((crossover_state chromosome1 chromosome2 d).child1,
   (crossover_state chromosome1 chromosome2 d).child2)

theorem crossover_foldl_spec (cut1 cut2 : ℕ) (d : CrossDraws) :
    ∀ (l : List (Fin 7)), l.Nodup → ∀ (s : CrossState),
      (l.foldl (crossover_body cut1 cut2 d) s).parent1 = s.parent1 ∧
      (l.foldl (crossover_body cut1 cut2 d) s).parent2 = s.parent2 ∧
      (l.foldl (crossover_body cut1 cut2 d) s).child1.fitness = s.child1.fitness ∧
      (l.foldl (crossover_body cut1 cut2 d) s).child2.fitness = s.child2.fitness ∧
      (∀ j, (l.foldl (crossover_body cut1 cut2 d) s).child1.weights j
        = if j ∈ l then gene1 cut1 cut2 d s.parent1 s.parent2 (s.child1.weights j) j
          else s.child1.weights j) ∧
      (∀ j, (l.foldl (crossover_body cut1 cut2 d) s).child2.weights j
        = if j ∈ l then gene2 cut1 cut2 d s.parent1 s.parent2 (s.child2.weights j) j
          else s.child2.weights j) := by
  intro l
  induction l with
  | nil =>
    intro _ s
    refine ⟨rfl, rfl, rfl, rfl, ?_, ?_⟩ <;> intro j <;> simp
  | cons i rest ih =>
    intro hnd s
    have hi : i ∉ rest := (List.nodup_cons.mp hnd).1
    have hrest : rest.Nodup := (List.nodup_cons.mp hnd).2
    rw [List.foldl_cons]
    obtain ⟨hp1, hp2, hf1, hf2, hw1, hw2⟩ := ih hrest (crossover_body cut1 cut2 d s i)
    have hbp1 : (crossover_body cut1 cut2 d s i).parent1 = s.parent1 := rfl
    have hbp2 : (crossover_body cut1 cut2 d s i).parent2 = s.parent2 := rfl
    refine ⟨by rw [hp1, hbp1], by rw [hp2, hbp2], by rw [hf1]; rfl, by rw [hf2]; rfl, ?_, ?_⟩
    · intro j
      rw [hw1 j, hbp1, hbp2]
      by_cases hjr : j ∈ rest
      · have hji : j ≠ i := fun h => hi (h ▸ hjr)
        have hb : (crossover_body cut1 cut2 d s i).child1.weights j = s.child1.weights j := by
          show Function.update s.child1.weights i _ j = _
          rw [Function.update_apply]
          simp [hji]
        simp only [hjr, if_true, List.mem_cons, or_true, hb]
      · by_cases hji : j = i
        · subst hji
          have hb : (crossover_body cut1 cut2 d s j).child1.weights j
              = gene1 cut1 cut2 d s.parent1 s.parent2 (s.child1.weights j) j := by
            show Function.update s.child1.weights j _ j = _
            rw [Function.update_apply]
            simp
          simp [hjr, hb]
        · have hb : (crossover_body cut1 cut2 d s i).child1.weights j = s.child1.weights j := by
            show Function.update s.child1.weights i _ j = _
            rw [Function.update_apply]
            simp [hji]
          simp [hjr, hji, hb]
    · intro j
      rw [hw2 j, hbp1, hbp2]
      by_cases hjr : j ∈ rest
      · have hji : j ≠ i := fun h => hi (h ▸ hjr)
        have hb : (crossover_body cut1 cut2 d s i).child2.weights j = s.child2.weights j := by
          show Function.update s.child2.weights i _ j = _
          rw [Function.update_apply]
          simp [hji]
        simp only [hjr, if_true, List.mem_cons, or_true, hb]
      · by_cases hji : j = i
        · subst hji
          have hb : (crossover_body cut1 cut2 d s j).child2.weights j
              = gene2 cut1 cut2 d s.parent1 s.parent2 (s.child2.weights j) j := by
            show Function.update s.child2.weights j _ j = _
            rw [Function.update_apply]
            simp
          simp [hjr, hb]
        · have hb : (crossover_body cut1 cut2 d s i).child2.weights j = s.child2.weights j := by
            show Function.update s.child2.weights i _ j = _
            rw [Function.update_apply]
            simp [hji]
          simp [hjr, hji, hb]

theorem crossover_state_spec (c1 c2 : Chromosome) (d : CrossDraws) :
    (crossover_state c1 c2 d).parent1 = c1 ∧
    (crossover_state c1 c2 d).parent2 = c2 ∧
    (crossover_state c1 c2 d).child1.fitness = 0 ∧
    (crossover_state c1 c2 d).child2.fitness = 0 ∧
    (∀ j, (crossover_state c1 c2 d).child1.weights j
      = gene1 (randint 0 3 d.cut1Raw) (randint 4 6 d.cut2Raw) d c1 c2 0 j) ∧
    (∀ j, (crossover_state c1 c2 d).child2.weights j
      = gene2 (randint 0 3 d.cut1Raw) (randint 4 6 d.cut2Raw) d c1 c2 0 j) := by
  obtain ⟨hp1, hp2, hf1, hf2, hw1, hw2⟩ :=
    crossover_foldl_spec (randint 0 3 d.cut1Raw) (randint 4 6 d.cut2Raw) d
      (List.finRange 7) (List.nodup_finRange 7)
      ⟨Chromosome.new, Chromosome.new, c1, c2⟩
  refine ⟨hp1, hp2, hf1, hf2, ?_, ?_⟩
  · intro j
    have := hw1 j
    simpa [List.mem_finRange, Chromosome.new] using this
  · intro j
    have := hw2 j
    simpa [List.mem_finRange, Chromosome.new] using this

/-- C2: `crossover` picks `cut1` in `[0, 3]` and `cut2` in `[4, 6]`, and
each non-mutated gene at index `i` of child A comes from parent A when
`i < cut1` or `i >= cut2` and from parent B when `cut1 <= i < cut2`, while
child B uses the mirrored mapping (parent B, parent A, parent B). -/
theorem crossover_segments_spec (c1 c2 : Chromosome) (d : CrossDraws) :
    randint 0 3 d.cut1Raw ≤ 3 ∧
    4 ≤ randint 4 6 d.cut2Raw ∧ randint 4 6 d.cut2Raw ≤ 6 ∧
    (∀ j : Fin 7, ¬ d.mut1 j ≤ crossover_p →
      (crossover c1 c2 d).1.weights j
        = if (j : ℕ) < randint 0 3 d.cut1Raw ∨ randint 4 6 d.cut2Raw ≤ (j : ℕ)
          then c1.weights j else c2.weights j) ∧
    (∀ j : Fin 7, ¬ d.mut2 j ≤ crossover_p →
      (crossover c1 c2 d).2.weights j
        = if (j : ℕ) < randint 0 3 d.cut1Raw ∨ randint 4 6 d.cut2Raw ≤ (j : ℕ)
          then c2.weights j else c1.weights j) := by
  obtain ⟨_, _, _, _, hw1, hw2⟩ := crossover_state_spec c1 c2 d
  refine ⟨randint_le (by norm_num) _, le_randint _ _ _, randint_le (by norm_num) _, ?_, ?_⟩
  · intro j hmut
    show (crossover_state c1 c2 d).child1.weights j = _
    rw [hw1 j, gene1, if_neg hmut]
    split_ifs <;> first | rfl | omega
  · intro j hmut
    show (crossover_state c1 c2 d).child2.weights j = _
    rw [hw2 j, gene2, if_neg hmut]
    split_ifs <;> first | rfl | omega

/-- Example parent chromosome used in closed witness instances. -/
def exParent1 : Chromosome := ⟨fun i => ((i : ℕ) : ℚ) + 100, 0⟩

/-- Example parent chromosome used in closed witness instances. -/
def exParent2 : Chromosome := ⟨fun i => ((i : ℕ) : ℚ) + 200, 0⟩

/-- Example draw record with every mutation roll above `0.5` (no gene
mutates). -/
def exDrawsA : CrossDraws := ⟨2, 1, fun _ => 1, fun _ => 1, fun _ => 3, fun _ => 4⟩

/-- Example draw record with every mutation roll at `0` (every gene
mutates). -/
def exDrawsB : CrossDraws := ⟨2, 1, fun _ => 0, fun _ => 0, fun _ => 3, fun _ => 4⟩

/-- Closed instance of C2: with a mutation roll above `0.5` at gene 0 the
segment-copy equation of `crossover_segments_spec` holds on concrete
parents and draws. -/
theorem crossover_segments_witness :
    ¬ exDrawsA.mut1 0 ≤ crossover_p ∧
    (crossover exParent1 exParent2 exDrawsA).1.weights 0
      = if ((0 : Fin 7) : ℕ) < randint 0 3 exDrawsA.cut1Raw
            ∨ randint 4 6 exDrawsA.cut2Raw ≤ ((0 : Fin 7) : ℕ)
        then exParent1.weights 0 else exParent2.weights 0 :=
  ⟨by decide, (crossover_segments_spec exParent1 exParent2 exDrawsA).2.2.2.1 0 (by decide)⟩

/-- C3: per gene and per child, exactly one of mutation or parental copy
occurs: on a roll at most `0.5` the gene becomes the child's current
default gene value plus a random integer in `[0, 10]` (a non-negative
increment whose value does not involve either parent), and otherwise the
gene is copied from one of the parents with no increment applied. -/
theorem crossover_mutation_spec (c1 c2 : Chromosome) (d : CrossDraws) (j : Fin 7) :
    (d.mut1 j ≤ crossover_p →
      (crossover c1 c2 d).1.weights j
          = Chromosome.new.weights j + (randint 0 10 (d.inc1 j) : ℚ) ∧
      randint 0 10 (d.inc1 j) ≤ 10 ∧ (0 : ℚ) ≤ (randint 0 10 (d.inc1 j) : ℚ)) ∧
    (¬ d.mut1 j ≤ crossover_p →
      (crossover c1 c2 d).1.weights j = c1.weights j ∨
      (crossover c1 c2 d).1.weights j = c2.weights j) ∧
    (d.mut2 j ≤ crossover_p →
      (crossover c1 c2 d).2.weights j
          = Chromosome.new.weights j + (randint 0 10 (d.inc2 j) : ℚ) ∧
      randint 0 10 (d.inc2 j) ≤ 10 ∧ (0 : ℚ) ≤ (randint 0 10 (d.inc2 j) : ℚ)) ∧
    (¬ d.mut2 j ≤ crossover_p →
      (crossover c1 c2 d).2.weights j = c2.weights j ∨
      (crossover c1 c2 d).2.weights j = c1.weights j) := by
  obtain ⟨_, _, _, _, hw1, hw2⟩ := crossover_state_spec c1 c2 d
  refine ⟨?_, ?_, ?_, ?_⟩
  · intro hmut
    refine ⟨?_, randint_le (by norm_num) _, Nat.cast_nonneg _⟩
    show (crossover_state c1 c2 d).child1.weights j = _
    rw [hw1 j, gene1, if_pos hmut]
    rfl
  · intro hmut
    have : (crossover c1 c2 d).1.weights j
        = gene1 (randint 0 3 d.cut1Raw) (randint 4 6 d.cut2Raw) d c1 c2 0 j := hw1 j
    rw [this, gene1, if_neg hmut]
    split_ifs <;> simp
  · intro hmut
    refine ⟨?_, randint_le (by norm_num) _, Nat.cast_nonneg _⟩
    show (crossover_state c1 c2 d).child2.weights j = _
    rw [hw2 j, gene2, if_pos hmut]
    rfl
  · intro hmut
    have : (crossover c1 c2 d).2.weights j
        = gene2 (randint 0 3 d.cut1Raw) (randint 4 6 d.cut2Raw) d c1 c2 0 j := hw2 j
    rw [this, gene2, if_neg hmut]
    split_ifs <;> simp

/-- Closed instance of C3: with a mutation roll of `0` at gene 0 the
mutation equation of `crossover_mutation_spec` holds on concrete parents
and draws. -/
theorem crossover_mutation_witness :
    exDrawsB.mut1 0 ≤ crossover_p ∧
    (crossover exParent1 exParent2 exDrawsB).1.weights 0
      = Chromosome.new.weights 0 + (randint 0 10 (exDrawsB.inc1 0) : ℚ) :=
  ⟨by decide, ((crossover_mutation_spec exParent1 exParent2 exDrawsB 0).1 (by decide)).1⟩

/-- C10: `crossover` allocates two new child chromosomes and leaves both
parents' weight vectors and fitness values unchanged in the store: every
write of the loop targets only the children's genes (in particular even
the children's fitness fields keep their fresh value). -/
theorem crossover_frame_spec (c1 c2 : Chromosome) (d : CrossDraws) :
    (crossover_state c1 c2 d).parent1 = c1 ∧
    (crossover_state c1 c2 d).parent2 = c2 ∧
    (crossover_state c1 c2 d).parent1.weights = c1.weights ∧
    (crossover_state c1 c2 d).parent1.fitness = c1.fitness ∧
    (crossover_state c1 c2 d).parent2.weights = c2.weights ∧
    (crossover_state c1 c2 d).parent2.fitness = c2.fitness ∧
    (crossover_state c1 c2 d).child1.fitness = Chromosome.new.fitness ∧
    (crossover_state c1 c2 d).child2.fitness = Chromosome.new.fitness ∧
    crossover c1 c2 d
      = ((crossover_state c1 c2 d).child1, (crossover_state c1 c2 d).child2) := by
  obtain ⟨hp1, hp2, hf1, hf2, _, _⟩ := crossover_state_spec c1 c2 d
  exact ⟨hp1, hp2, by rw [hp1], by rw [hp1], by rw [hp2], by rw [hp2], hf1, hf2, rfl⟩

/-- Embedding of `add_children(population)`: `random.shuffle` reorders the
list in place, so the shuffled list is taken as the draw (an arbitrary
permutation of the population); the list is split at `mid = len // 2`
(Python 2 integer division), element `i` of the first half is paired with
element `i` of the second half, and both crossover children of each pair
are appended. The mutated-in-place population is returned as a value. -/
def add_children (shuffled : List Chromosome) (draws : ℕ → CrossDraws) : List Chromosome :=
  let mid := shuffled.length / 2
  let half1 := shuffled.take mid
  let half2 := shuffled.drop mid
  shuffled ++ (List.range mid).flatMap (fun i =>
    let children := crossover (half1.getD i Chromosome.new) (half2.getD i Chromosome.new) (draws i)
    [children.1, children.2])

theorem flatMap_pair_length {α β : Type} (l : List α) (f : α → List β)
    (hf : ∀ x ∈ l, (f x).length = 2) : (l.flatMap f).length = 2 * l.length := by
  induction l with
  | nil => simp
  | cons x xs ih =>
    rw [List.flatMap_cons, List.length_append, hf x (List.mem_cons_self x xs),
      ih (fun y hy => hf y (List.mem_cons_of_mem x hy))]
    simp [List.length_cons]
    omega

theorem flatMap_congr_mem {α β : Type} (l : List α) (f g : α → List β)
    (h : ∀ x ∈ l, f x = g x) : l.flatMap f = l.flatMap g := by
  induction l with
  | nil => simp
  | cons x xs ih =>
    rw [List.flatMap_cons, List.flatMap_cons, h x (List.mem_cons_self x xs),
      ih (fun y hy => h y (List.mem_cons_of_mem x hy))]

theorem getD_take_of_lt {α : Type} (l : List α) {m i : ℕ} (h : i < m) (dflt : α) :
    (l.take m).getD i dflt = l.getD i dflt := by
  rw [List.getD_eq_getElem?_getD, List.getD_eq_getElem?_getD, List.getElem?_take_of_lt h]

theorem getD_drop_add {α : Type} (l : List α) (m i : ℕ) (dflt : α) :
    (l.drop m).getD i dflt = l.getD (m + i) dflt := by
  rw [List.getD_eq_getElem?_getD, List.getD_eq_getElem?_getD, List.getElem?_drop]

theorem add_children_eq (shuffled : List Chromosome) (draws : ℕ → CrossDraws) :
    add_children shuffled draws
      = shuffled ++ (List.range (shuffled.length / 2)).flatMap (fun i =>
          [(crossover (shuffled.getD i Chromosome.new)
              (shuffled.getD (shuffled.length / 2 + i) Chromosome.new) (draws i)).1,
           (crossover (shuffled.getD i Chromosome.new)
              (shuffled.getD (shuffled.length / 2 + i) Chromosome.new) (draws i)).2]) := by
  unfold add_children
  refine congrArg (shuffled ++ ·) (flatMap_congr_mem _ _ _ ?_)
  intro i hi
  have hilt : i < shuffled.length / 2 := List.mem_range.mp hi
  rw [getD_take_of_lt _ hilt, getD_drop_add]

theorem add_children_length (shuffled : List Chromosome) (draws : ℕ → CrossDraws) :
    (add_children shuffled draws).length
      = shuffled.length + 2 * (shuffled.length / 2) := by
  rw [add_children_eq, List.length_append, flatMap_pair_length]
  · rw [List.length_range]
  · intro x _
    rfl

/-- C4: `add_children` on a population of size `N` produces a population of
size `N + 2 * (N / 2)`: it appends, for each of the `N / 2` pairs, both
crossover children of element `i` of the first half of the shuffled list
and element `i` of its second half; when `N` is odd exactly one index (the
last one) belongs to no pair. -/
theorem add_children_spec (population shuffled : List Chromosome) (draws : ℕ → CrossDraws)
    (hperm : shuffled.Perm population) :
    (add_children shuffled draws).length
        = population.length + 2 * (population.length / 2) ∧
    add_children shuffled draws
      = shuffled ++ (List.range (population.length / 2)).flatMap (fun i =>
          [(crossover (shuffled.getD i Chromosome.new)
              (shuffled.getD (population.length / 2 + i) Chromosome.new) (draws i)).1,
           (crossover (shuffled.getD i Chromosome.new)
              (shuffled.getD (population.length / 2 + i) Chromosome.new) (draws i)).2]) ∧
    (Odd population.length → ∀ j < population.length,
      (∃ i < population.length / 2, j = i ∨ j = population.length / 2 + i)
        ↔ j ≠ population.length - 1) := by
  have hlen : shuffled.length = population.length := hperm.length_eq
  refine ⟨by rw [add_children_length, hlen], by rw [add_children_eq, hlen], ?_⟩
  intro hodd j hj
  obtain ⟨m, hm⟩ := hodd
  constructor
  · rintro ⟨i, hi, hc | hc⟩ <;> omega
  · intro hne
    by_cases hcase : j < population.length / 2
    · exact ⟨j, hcase, Or.inl rfl⟩
    · exact ⟨j - population.length / 2, by omega, Or.inr (by omega)⟩

/-- Example population of three distinct chromosomes. -/
def exPop3 : List Chromosome := [exParent1, exParent2, Chromosome.new]

/-- Closed instance of C4: the size equation of `add_children_spec` on a
concrete odd-sized population with the identity shuffle. -/
theorem add_children_spec_witness :
    exPop3.Perm exPop3 ∧
    (add_children exPop3 (fun _ => exDrawsA)).length
      = exPop3.length + 2 * (exPop3.length / 2) :=
  ⟨List.Perm.refl _, (add_children_spec exPop3 exPop3 (fun _ => exDrawsA) (List.Perm.refl _)).1⟩

/-- Random draws consumed by one iteration of the `select_fittest` loop:
the `random.uniform(0, 1)` roll and the raw `random.randint(0, len - 1)`
draw used when the random branch is taken. -/
structure SelDraws where
  roll : ℚ
  rndRaw : ℕ

/-- Scan of the source loop `for x in population` that tracks the best
fitness seen, the index where it was first seen, and the current index;
only a strictly greater fitness replaces the best. -/
def best_idx_go : List Chromosome → ℕ → ℕ → ℕ → ℕ
  | [], _, bi, _ => bi
  | x :: xs, bf, bi, cur =>
    if bf < x.fitness then best_idx_go xs x.fitness cur (cur + 1)
    else best_idx_go xs bf bi (cur + 1)

/-- Index of `best_chromosome` in the elitist branch of `select_fittest`:
the scan starts from `population[0]` and only a strictly greater fitness
replaces the best, so this is the first index of maximal fitness;
`population.remove(best_chromosome)` removes exactly the object the scan
ended on (CPython comparison is object identity here), i.e. the element at
this index. -/
def best_idx : List Chromosome → ℕ
  | [] => 0
  | x :: xs => best_idx_go xs x.fitness 0 1

/-- One iteration of the `select_fittest` loop: with probability `p = 0.1`
remove a uniformly random chromosome from the pool, otherwise remove the
first chromosome of maximal fitness; the chosen one is returned together
with the shrunken pool. An empty pool would raise in Python (modelled as
`none`); it is unreachable from `select_fittest`. -/
def select_step (population : List Chromosome) (d : SelDraws) :
    Option (Chromosome × List Chromosome) :=
  match population with
  | [] => none
  | _ :: _ =>
    if d.roll ≤ selection_p then
      some (population.getD (d.rndRaw % population.length) Chromosome.new,
            population.eraseIdx (d.rndRaw % population.length))
    else
      some (population.getD (best_idx population) Chromosome.new,
            population.eraseIdx (best_idx population))

/-- Iterated selection loop: `k` remaining iterations, `t` the index into
the draw stream; accumulates the `fittest` list in order of selection and
returns it with the final pool. -/
def select_go (draws : ℕ → SelDraws) : ℕ → ℕ → List Chromosome → Option (List Chromosome × List Chromosome)
  | _, 0, population => some ([], population)
  | t, k + 1, population =>
    match select_step population (draws t) with
    | none => none
    | some (c, rest) =>
      match select_go draws (t + 1) k rest with
      | none => none
      | some (fits, rem) => some (c :: fits, rem)

/-- Embedding of `select_fittest(population)`: Python 2 evaluates
`range(len(population) / 2)` once, so the loop runs `len // 2` iterations
on the initial length; the pair returned is the `fittest` list (the
function's return value) and the final mutated pool. -/
def select_fittest (population : List Chromosome) (draws : ℕ → SelDraws) :
    Option (List Chromosome × List Chromosome) :=
  select_go draws 0 (population.length / 2) population

theorem best_idx_go_lt :
    ∀ (xs : List Chromosome) (bf bi cur : ℕ), bi < cur →
      best_idx_go xs bf bi cur < cur + xs.length := by
  intro xs
  induction xs with
  | nil =>
    intro bf bi cur h
    simpa [best_idx_go] using h
  | cons x xs ih =>
    intro bf bi cur h
    rw [best_idx_go]
    split_ifs
    · have := ih x.fitness cur (cur + 1) (Nat.lt_succ_self cur)
      simp only [List.length_cons]
      omega
    · have := ih bf bi (cur + 1) (by omega)
      simp only [List.length_cons]
      omega

theorem best_idx_lt (x : Chromosome) (xs : List Chromosome) :
    best_idx (x :: xs) < (x :: xs).length := by
  have := best_idx_go_lt xs x.fitness 0 1 (by omega)
  simp only [best_idx, List.length_cons]
  omega

theorem getD_cons_eraseIdx_perm :
    ∀ (l : List Chromosome) (i : ℕ), i < l.length →
      (l.getD i Chromosome.new :: l.eraseIdx i).Perm l := by
  intro l
  induction l with
  | nil =>
    intro i h
    simp at h
  | cons x xs ih =>
    intro i h
    cases i with
    | zero => simp
    | succ n =>
      have hn : n < xs.length := by
        simp only [List.length_cons] at h
        omega
      have hperm := ih n hn
      simp only [List.getD_cons_succ, List.eraseIdx_cons_succ]
      exact (List.Perm.swap x _ _).trans (hperm.cons x)

theorem select_step_spec (pop : List Chromosome) (d : SelDraws) (h : pop ≠ []) :
    ∃ c rest, select_step pop d = some (c, rest) ∧ (c :: rest).Perm pop := by
  cases pop with
  | nil => exact absurd rfl h
  | cons x xs =>
    have hlen : 0 < (x :: xs).length := by simp
    by_cases hr : d.roll ≤ selection_p
    · have hidx : d.rndRaw % (x :: xs).length < (x :: xs).length := Nat.mod_lt _ hlen
      exact ⟨_, _, by simp [select_step, hr], getD_cons_eraseIdx_perm _ _ hidx⟩
    · have hidx := best_idx_lt x xs
      exact ⟨_, _, by simp [select_step, hr], getD_cons_eraseIdx_perm _ _ hidx⟩

theorem select_go_spec (draws : ℕ → SelDraws) :
    ∀ (k t : ℕ) (pop : List Chromosome), k ≤ pop.length →
      ∃ fits rem, select_go draws t k pop = some (fits, rem) ∧
        fits.length = k ∧ (fits ++ rem).Perm pop := by
  intro k
  induction k with
  | zero =>
    intro t pop _
    exact ⟨[], pop, rfl, rfl, List.Perm.refl _⟩
  | succ n ih =>
    intro t pop h
    have hne : pop ≠ [] := by
      intro he
      rw [he] at h
      simp at h
    obtain ⟨c, rest, hstep, hperm⟩ := select_step_spec pop (draws t) hne
    have hlen : rest.length + 1 = pop.length := by
      have := hperm.length_eq
      simp only [List.length_cons] at this
      omega
    obtain ⟨fits, rem, hgo, hflen, hfperm⟩ := ih (t + 1) rest (by omega)
    refine ⟨c :: fits, rem, ?_, by simp [hflen], ?_⟩
    · rw [select_go, hstep]
      simp [hgo]
    · exact (hfperm.cons c).trans hperm

/-- C5: `select_fittest` on a population of size `n` succeeds and returns
exactly `n / 2` individuals; together with the final pool they are a
permutation of the input, so every returned individual was in the input
and no individual is selected more often than it occurs (each chosen
individual is removed from the pool before the next iteration). -/
theorem select_fittest_spec (population : List Chromosome) (draws : ℕ → SelDraws) :
    ∃ fits rem, select_fittest population draws = some (fits, rem) ∧
      fits.length = population.length / 2 ∧
      (fits ++ rem).Perm population ∧
      (∀ c, c ∈ fits → c ∈ population) ∧
      (∀ c, fits.count c ≤ population.count c) := by
  obtain ⟨fits, rem, h, hlen, hperm⟩ :=
    select_go_spec draws (population.length / 2) 0 population (Nat.div_le_self _ _)
  refine ⟨fits, rem, h, hlen, hperm, ?_, ?_⟩
  · intro c hc
    exact hperm.subset (List.mem_append_left _ hc)
  · intro c
    have hcount := hperm.count_eq c
    rw [List.count_append] at hcount
    omega

/-- Example selection draw stream: every roll is `1` (elitist branch). -/
def exSelDraws : ℕ → SelDraws := fun _ => ⟨1, 0⟩

/-- Counterexample to C6 as stated: on a population of size 1,
`select_fittest` runs `1 // 2 = 0` iterations and returns the empty
`fittest` list, not the population unchanged — the single individual is
dropped. -/
theorem select_fittest_singleton_counterexample :
    (select_fittest [exParent1] exSelDraws).map Prod.fst ≠ some [exParent1] := by
  decide

/-- C6 (amended): on a population of size 0 or 1 neither operator fails:
`add_children` returns the population unchanged, while `select_fittest`
succeeds with an empty survivor list and the pool unchanged (so for size 1
the individual is dropped from the returned survivors rather than carried
through). -/
theorem degenerate_population_spec (population shuffled : List Chromosome)
    (cd : ℕ → CrossDraws) (sd : ℕ → SelDraws)
    (hperm : shuffled.Perm population) (hn : population.length ≤ 1) :
    add_children shuffled cd = population ∧
    select_fittest population sd = some ([], population) := by
  have hlen : shuffled.length = population.length := hperm.length_eq
  constructor
  · have heq : shuffled = population := by
      cases population with
      | nil => exact hperm.eq_nil
      | cons x xs =>
        cases xs with
        | nil => exact List.perm_singleton.mp hperm
        | cons y ys => simp at hn
    have hmid : shuffled.length / 2 = 0 := by omega
    rw [add_children_eq, hmid, heq]
    simp
  · have hmid : population.length / 2 = 0 := by omega
    show select_go sd 0 (population.length / 2) population = _
    rw [hmid]
    rfl

/-- Closed instance of the amended C6 on a concrete singleton population. -/
theorem degenerate_population_witness :
    ([exParent1] : List Chromosome).Perm [exParent1] ∧
    ([exParent1] : List Chromosome).length ≤ 1 ∧
    (add_children [exParent1] (fun _ => exDrawsA) = [exParent1] ∧
     select_fittest [exParent1] exSelDraws = some ([], [exParent1])) :=
  ⟨List.Perm.refl _, by decide,
    degenerate_population_spec [exParent1] [exParent1] (fun _ => exDrawsA) exSelDraws
      (List.Perm.refl _) (by decide)⟩

/-- Python exception values that the embedded functions can raise. -/
inductive PyError where
  | zeroDivisionError
deriving DecidableEq

/-- Embedding of `avg_fitness(population)`: the source divides
`fit_sum / float(total)` with no emptiness guard, so an empty population
raises `ZeroDivisionError` (modelled as the error value); otherwise the
exact mean is returned. -/
def avg_fitness (population : List Chromosome) : Except PyError ℚ :=
  let total := population.length
  let fit_sum := population.foldl (fun s c => s + (c.fitness : ℚ)) 0
  if total = 0 then Except.error PyError.zeroDivisionError
  else Except.ok (fit_sum / (total : ℚ))

theorem fitness_foldl :
    ∀ (l : List Chromosome) (a : ℚ),
      l.foldl (fun s c => s + (c.fitness : ℚ)) a
        = a + (l.map (fun c => (c.fitness : ℚ))).sum := by
  intro l
  induction l with
  | nil => intro a; simp
  | cons x xs ih =>
    intro a
    rw [List.foldl_cons, ih]
    simp
    ring

/-- Counterexample to C7 as stated: the division by zero is not guarded —
on the empty population the embedded `avg_fitness` produces exactly the
propagated `ZeroDivisionError` numeric fault. -/
theorem avg_fitness_empty_counterexample :
    avg_fitness [] = Except.error PyError.zeroDivisionError := rfl

/-- C7 (amended): `avg_fitness` is unguarded — an empty population
propagates the `ZeroDivisionError` numeric fault — and on every non-empty
population it returns the arithmetic mean of the fitness values. -/
theorem avg_fitness_spec (population : List Chromosome) (h : population ≠ []) :
    avg_fitness population
      = Except.ok ((population.map (fun c => (c.fitness : ℚ))).sum
          / (population.length : ℚ)) ∧
    avg_fitness [] = Except.error PyError.zeroDivisionError := by
  refine ⟨?_, rfl⟩
  have hlen : population.length ≠ 0 := by
    intro he
    exact h (List.length_eq_zero.mp he)
  unfold avg_fitness
  rw [if_neg hlen, fitness_foldl]
  simp

/-- Closed instance of the amended C7 on a concrete one-element
population. -/
theorem avg_fitness_spec_witness :
    ([exParent1] : List Chromosome) ≠ [] ∧
    avg_fitness [exParent1]
      = Except.ok ((([exParent1] : List Chromosome).map (fun c => (c.fitness : ℚ))).sum
          / ((([exParent1] : List Chromosome).length : ℕ) : ℚ)) :=
  ⟨by decide, (avg_fitness_spec [exParent1] (by decide)).1⟩

/-- Embedding of `create_population(size)`: `size` fresh chromosomes;
`set_random_weights` is modelled from the spec (the method lives in the
missing `chromosome.py`): each gene is an independent uniform draw, passed
in as the draw function `wdraws`. -/
def create_population (size : ℕ) (wdraws : ℕ → Fin 7 → ℚ) : List Chromosome :=
  (List.range size).map (fun i => { weights := wdraws i, fitness := 0 })

/-- Embedding of `evaluate_population(population, data_file)`: every
chromosome is re-evaluated against the dataset. -/
def evaluate_population (population : List Chromosome) (data : List (List ℚ)) :
    List Chromosome :=
  population.map (fun c => evaluate_fitness c data)

/-- Generation loop of `optimize`: `gen` is the generation index (indexing
the per-generation draw streams), `k` the remaining iterations. Each cycle
grows the population by `add_children`, re-evaluates every chromosome, and
replaces the population by the `fittest` list of `select_fittest`. The
out-of-scope statistics stream and progress prints are omitted. -/
def optimize_go (data : List (List ℚ)) (shuffle : ℕ → List Chromosome → List Chromosome)
    (cd : ℕ → ℕ → CrossDraws) (sd : ℕ → ℕ → SelDraws) :
    ℕ → ℕ → List Chromosome → Option (List Chromosome)
  | _, 0, population => some population
  | gen, k + 1, population =>
    match select_fittest (evaluate_population (add_children (shuffle gen population) (cd gen)) data) (sd gen) with
    | none => none
    | some (fits, _) => optimize_go data shuffle cd sd (gen + 1) k fits

/-- Embedding of `optimize(initial_population, iterations, data_file)`:
create the initial population and run the vary-evaluate-select cycle
`iterations` times, returning the final population. -/
def optimize (initial_population iterations : ℕ) (data : List (List ℚ))
    (wdraws : ℕ → Fin 7 → ℚ) (shuffle : ℕ → List Chromosome → List Chromosome)
    (cd : ℕ → ℕ → CrossDraws) (sd : ℕ → ℕ → SelDraws) : Option (List Chromosome) :=
  optimize_go data shuffle cd sd 0 iterations (create_population initial_population wdraws)

theorem create_population_length (size : ℕ) (wdraws : ℕ → Fin 7 → ℚ) :
    (create_population size wdraws).length = size := by
  simp [create_population]

theorem evaluate_population_length (population : List Chromosome) (data : List (List ℚ)) :
    (evaluate_population population data).length = population.length := by
  simp [evaluate_population]

theorem optimize_go_spec (data : List (List ℚ))
    (shuffle : ℕ → List Chromosome → List Chromosome)
    (cd : ℕ → ℕ → CrossDraws) (sd : ℕ → ℕ → SelDraws)
    (hshuffle : ∀ gen l, (shuffle gen l).Perm l) (N : ℕ) (heven : Even N) :
    ∀ (k gen : ℕ) (pop : List Chromosome), pop.length = N →
      ∃ fin, optimize_go data shuffle cd sd gen k pop = some fin ∧ fin.length = N := by
  obtain ⟨m, hm⟩ := heven
  intro k
  induction k with
  | zero =>
    intro gen pop h
    exact ⟨pop, rfl, h⟩
  | succ n ih =>
    intro gen pop h
    have hsh : (shuffle gen pop).length = N := by
      rw [(hshuffle gen pop).length_eq, h]
    have hgrown : (add_children (shuffle gen pop) (cd gen)).length = 2 * N := by
      rw [add_children_length, hsh]
      omega
    have heval :
        (evaluate_population (add_children (shuffle gen pop) (cd gen)) data).length
          = 2 * N := by
      rw [evaluate_population_length, hgrown]
    obtain ⟨fits, rem, hsel, hflen, _⟩ :=
      select_go_spec (sd gen)
        ((evaluate_population (add_children (shuffle gen pop) (cd gen)) data).length / 2) 0
        (evaluate_population (add_children (shuffle gen pop) (cd gen)) data)
        (Nat.div_le_self _ _)
    have hsel2 :
        select_fittest (evaluate_population (add_children (shuffle gen pop) (cd gen)) data)
          (sd gen) = some (fits, rem) := by
      unfold select_fittest
      exact hsel
    rw [heval] at hflen
    have hfits : fits.length = N := by rw [hflen]; omega
    obtain ⟨fin, hgo, hfin⟩ := ih (gen + 1) fits hfits
    refine ⟨fin, ?_, hfin⟩
    rw [optimize_go, hsel2]
    simpa using hgo

/-- C8: for every even initial population size `N` and every number of
generations, `optimize` terminates after exactly that many
vary-evaluate-select cycles (the embedding recurses once per generation)
and returns a final population of exactly `N` individuals. -/
theorem optimize_spec (initial_population iterations : ℕ)
    (data : List (List ℚ)) (wdraws : ℕ → Fin 7 → ℚ)
    (shuffle : ℕ → List Chromosome → List Chromosome)
    (cd : ℕ → ℕ → CrossDraws) (sd : ℕ → ℕ → SelDraws)
    (heven : Even initial_population)
    (hshuffle : ∀ gen l, (shuffle gen l).Perm l) :
    ∃ pop, optimize initial_population iterations data wdraws shuffle cd sd = some pop ∧
      pop.length = initial_population := by
  exact optimize_go_spec data shuffle cd sd hshuffle initial_population heven
    iterations 0 (create_population initial_population wdraws)
    (create_population_length _ _)

/-- Closed instance of C8: `initial_size = 10` with `generations = 5` on
trivial draws returns exactly 10 individuals. -/
theorem optimize_spec_witness :
    Even 10 ∧
    (∀ (_ : ℕ) (l : List Chromosome), l.Perm l) ∧
    ∃ pop, optimize 10 5 [] (fun _ _ => 0) (fun _ l => l)
        (fun _ _ => exDrawsA) (fun _ _ => exSelDraws 0) = some pop ∧
      pop.length = 10 :=
  ⟨by decide, fun _ l => List.Perm.refl l,
    optimize_spec 10 5 [] (fun _ _ => 0) (fun _ l => l)
      (fun _ _ => exDrawsA) (fun _ _ => exSelDraws 0) (by decide)
      (fun _ l => List.Perm.refl l)⟩

/-- Stable descending insertion used to embed
`population.sort(key=lambda x: x.fitness, reverse=True)`: the new element
is placed before the first already-placed element whose fitness does not
exceed it, so among equal fitness values the original order is kept —
the defining property of Python's stable sort, which determines the sorted
list uniquely. -/
def insertDesc (x : Chromosome) : List Chromosome → List Chromosome
  | [] => [x]
  | y :: ys => if y.fitness ≤ x.fitness then x :: y :: ys else y :: insertDesc x ys

/-- Stable descending sort by fitness (see `insertDesc`). -/
def sortDesc : List Chromosome → List Chromosome
  | [] => []
  | x :: xs => insertDesc x (sortDesc xs)

/-- Embedding of `get_optimal(population)`: sort descending by fitness
(stable) and take element 0; an empty population would raise an
`IndexError` in Python, modelled as `none`. -/
def get_optimal (population : List Chromosome) : Option Chromosome :=
  (sortDesc population).head?

/-- First maximal-fitness element of a list (ties resolved in favor of the
earlier element). -/
def first_max : List Chromosome → Option Chromosome
  | [] => none
  | x :: xs =>
    match first_max xs with
    | none => some x
    | some h => some (if h.fitness ≤ x.fitness then x else h)

theorem first_max_ne_none : ∀ (x : Chromosome) (xs : List Chromosome), first_max (x :: xs) ≠ none := by
  intro x xs
  rw [first_max]
  cases first_max xs <;> simp

theorem sortDesc_head : ∀ (l : List Chromosome), (sortDesc l).head? = first_max l := by
  intro l
  induction l with
  | nil => rfl
  | cons x xs ih =>
    cases hs : sortDesc xs with
    | nil =>
      have hfm : first_max xs = none := by rw [← ih, hs]; rfl
      rw [sortDesc, hs, first_max, hfm]
      rfl
    | cons y ys =>
      have hfm : first_max xs = some y := by rw [← ih, hs]; rfl
      rw [sortDesc, hs, first_max, hfm]
      rw [insertDesc]
      split_ifs with hcmp
      · show some x = some (if y.fitness ≤ x.fitness then x else y)
        rw [if_pos hcmp]
      · show some y = some (if y.fitness ≤ x.fitness then x else y)
        rw [if_neg hcmp]

theorem first_max_spec :
    ∀ (l : List Chromosome), l ≠ [] →
      ∃ c, first_max l = some c ∧ c ∈ l ∧ (∀ x ∈ l, x.fitness ≤ c.fitness) ∧
        ∃ i, i < l.length ∧ l.getD i Chromosome.new = c ∧
          ∀ k, k < i → (l.getD k Chromosome.new).fitness < c.fitness := by
  intro l
  induction l with
  | nil => intro h; exact absurd rfl h
  | cons x xs ih =>
    intro _
    cases hfm : first_max xs with
    | none =>
      have hxs : xs = [] := by
        cases xs with
        | nil => rfl
        | cons a as => exact absurd hfm (first_max_ne_none a as)
      subst hxs
      refine ⟨x, by rw [first_max]; rfl, by simp, ?_, 0, by simp, rfl, by omega⟩
      intro y hy
      have : y = x := by simpa using hy
      rw [this]
    | some h =>
      have hxs : xs ≠ [] := by
        intro he
        rw [he] at hfm
        simp [first_max] at hfm
      obtain ⟨c, hc, hmem, hbound, i, hi, hgd, hlt⟩ := ih hxs
      have hch : c = h := by
        rw [hc] at hfm
        exact Option.some.inj hfm
      subst hch
      by_cases hcmp : c.fitness ≤ x.fitness
      · refine ⟨x, ?_, by simp, ?_, 0, by simp, rfl, by omega⟩
        · rw [first_max, hfm]
          show some (if c.fitness ≤ x.fitness then x else c) = some x
          rw [if_pos hcmp]
        · intro y hy
          rcases List.mem_cons.mp hy with hyx | hyxs
          · rw [hyx]
          · exact le_trans (hbound y hyxs) hcmp
      · refine ⟨c, ?_, List.mem_cons_of_mem x hmem, ?_, i + 1, ?_, ?_, ?_⟩
        · rw [first_max, hfm]
          show some (if c.fitness ≤ x.fitness then x else c) = some c
          rw [if_neg hcmp]
        · intro y hy
          rcases List.mem_cons.mp hy with hyx | hyxs
          · rw [hyx]; omega
          · exact hbound y hyxs
        · simp only [List.length_cons]; omega
        · rw [List.getD_cons_succ, hgd]
        · intro k hk
          cases k with
          | zero =>
            show ((x :: xs).getD 0 Chromosome.new).fitness < c.fitness
            simp only [List.getD_cons_zero]
            omega
          | succ j =>
            rw [List.getD_cons_succ]
            exact hlt j (by omega)

/-- Example chromosome with fitness 3 and default genes. -/
def exFit3 : Chromosome := ⟨fun _ => 0, 3⟩

/-- Example chromosome with fitness 7 and default genes. -/
def exFit7 : Chromosome := ⟨fun _ => 0, 7⟩

/-- Example chromosome with fitness 5 and default genes. -/
def exFit5 : Chromosome := ⟨fun _ => 0, 5⟩

/-- C9: on every non-empty population `get_optimal` returns an individual
whose fitness is at least that of every member, and it is the earliest
such individual in the original order (every strictly earlier member has
strictly smaller fitness); on the population with fitness values
`[3, 7, 5]` it returns the fitness-7 individual. -/
theorem get_optimal_spec :
    (∀ (population : List Chromosome), population ≠ [] →
      ∃ c, get_optimal population = some c ∧ c ∈ population ∧
        (∀ x ∈ population, x.fitness ≤ c.fitness) ∧
        ∃ i, i < population.length ∧ population.getD i Chromosome.new = c ∧
          ∀ k, k < i → (population.getD k Chromosome.new).fitness < c.fitness) ∧
    get_optimal [exFit3, exFit7, exFit5] = some exFit7 := by
  constructor
  · intro population h
    obtain ⟨c, hc, rest⟩ := first_max_spec population h
    refine ⟨c, ?_, rest⟩
    rw [get_optimal, sortDesc_head]
    exact hc
  · decide

/-- Closed instance of C9: the general part of `get_optimal_spec` applied
to the concrete three-element population. -/
theorem get_optimal_spec_witness :
    ([exFit3, exFit7, exFit5] : List Chromosome) ≠ [] ∧
    ∃ c, get_optimal [exFit3, exFit7, exFit5] = some c ∧
      c ∈ ([exFit3, exFit7, exFit5] : List Chromosome) ∧
      (∀ x ∈ ([exFit3, exFit7, exFit5] : List Chromosome), x.fitness ≤ c.fitness) ∧
      ∃ i, i < ([exFit3, exFit7, exFit5] : List Chromosome).length ∧
        ([exFit3, exFit7, exFit5] : List Chromosome).getD i Chromosome.new = c ∧
        ∀ k, k < i →
          (([exFit3, exFit7, exFit5] : List Chromosome).getD k Chromosome.new).fitness
            < c.fitness :=
  ⟨by decide, get_optimal_spec.1 [exFit3, exFit7, exFit5] (by decide)⟩
